import Mathlib

/-!
Verification of the core of `fleiss_kappa_app.py`.

The two core functions, `fleiss_kappa_binary` and
`reviewer_contribution_analysis`, are embedded as Lean functions over
`List (List ℤ)` (the rating matrix) with exact rational arithmetic in
place of IEEE doubles.  Python exceptions (`ValueError` from the five
validation checks, and the `ValueError` raised by `max` on an empty
sequence) are modelled with `Except String`.  The one genuinely
floating-point behaviour — the kappa division `(po - p_e) / (1 - p_e)`
evaluating `0.0 / 0.0` when `p_e == 1` (numpy float64 scalar division
emits a RuntimeWarning and yields NaN; it does not raise) — is modelled
by making the kappa component an `Option ℚ`, with `none` standing for
NaN.  Whenever the denominator `1 - p_e` is zero the numerator
`po - p_e` is zero as well, so the division is always `0/0 = NaN` there,
never `±inf`.
-/

namespace FleissKappa

/-- Embedding of `n_raters = len(ratings)`. -/
def nRaters (ratings : List (List ℤ)) : ℕ := ratings.length

/-- Embedding of `n_items = len(ratings[0])` (`0` when there are no rater rows). -/
def nItems (ratings : List (List ℤ)) : ℕ := (ratings.headD []).length

/-- Column `i` of the matrix: the values `ratings[j][i]` for each rater `j`.
For rectangular input and `i < n_items` this is position `i` of
`zip(*ratings)`; out-of-range reads default to `0` and never occur on the
index ranges the code uses. -/
def col (ratings : List (List ℤ)) (i : ℕ) : List ℤ :=
  ratings.map (fun row => row.getD i 0)

/-- The inner double loop `for j: for k in range(j+1, n_raters)` of the
source, restricted to one item: each rater `j` contributes the number of
later raters `k` that gave the same value. -/
def pairAgreements : List ℤ → ℕ
  | [] => 0
  | x :: xs => xs.countP (fun y => x == y) + pairAgreements xs

/-- The same double loop counting every pair once: the `total_pairs`
contribution of one item. -/
def pairTotal : List ℤ → ℕ
  | [] => 0
  | _ :: xs => xs.length + pairTotal xs

/-- The `agreements` counter accumulated over the outer `for i in range(n_items)` loop. -/
def agreements (ratings : List (List ℤ)) : ℕ :=
  ((List.range (nItems ratings)).map (fun i => pairAgreements (col ratings i))).sum

/-- The `total_pairs` counter accumulated over the outer `for i in range(n_items)` loop. -/
def totalPairs (ratings : List (List ℤ)) : ℕ :=
  ((List.range (nItems ratings)).map (fun i => pairTotal (col ratings i))).sum

/-- Embedding of `po = agreements / total_pairs`. -/
def poVal (ratings : List (List ℤ)) : ℚ :=
  (agreements ratings : ℚ) / (totalPairs ratings : ℚ)

/-- Embedding of `p_pos = np.mean([sum(item) / n_raters for item in zip(*ratings)])`. -/
def p_pos (ratings : List (List ℤ)) : ℚ :=
  (((List.range (nItems ratings)).map
      (fun i => ((col ratings i).sum : ℚ) / (nRaters ratings : ℚ))).sum) /
    (nItems ratings : ℚ)

/-- Embedding of `p_e = p_pos**2 + p_neg**2` with `p_neg = 1 - p_pos`. -/
def p_e (ratings : List (List ℤ)) : ℚ :=
  p_pos ratings ^ 2 + (1 - p_pos ratings) ^ 2

/-- Embedding of `kappa = (po - p_e) / (1 - p_e)`.  When `p_e == 1` the float division
is `0.0 / 0.0`, which numpy evaluates to NaN (modelled as `none`). -/
def kappaVal (ratings : List (List ℤ)) : Option ℚ :=
  if p_e ratings = 1 then none
  else some ((poVal ratings - p_e ratings) / (1 - p_e ratings))

/-- Embedding of `fleiss_kappa_binary`: the five ordered validation
checks (first failing check raises), then the agreement computation. -/
def fleiss_kappa_binary (ratings : List (List ℤ)) : Except String (Option ℚ × ℚ) :=
  if ratings.isEmpty then .error "The ratings list is empty."
  else if ratings.length < 2 then .error "There should be at least two raters."
  else if (ratings.map List.length).dedup.length ≠ 1 then
    .error "All inner lists should have the same length."
  else if ! ratings.all (fun row => row.all (fun x => x == 0 || x == 1)) then
    .error "All ratings should be binary (0 or 1)."
  else if (ratings.headD []).length < 2 then
    .error "There should be at least two items being rated."
  else .ok (kappaVal ratings, poVal ratings)

/-- Python float `>` as used by the builtin `max`: any comparison
involving NaN (`none`) is false. -/
def pyGt (a b : Option ℚ) : Bool :=
  match a, b with
  | some x, some y => decide (y < x)
  | _, _ => false

/-- The builtin `max(iterable)`: start from the first element and replace
the current result whenever a later element compares strictly greater. -/
def pyMax (x : Option ℚ) (xs : List (Option ℚ)) : Option ℚ :=
  xs.foldl (fun acc y => if pyGt y acc then y else acc) x

/-- The element test of `list.index`: CPython tests `x is value or
x == value`.  For floats, `==` on NaN is always false and the identity
shortcut fires only at the position of the max-result object itself; since `pyMax`
returns `none` only when the list head is `none`, the `none, none => true`
clause reproduces the position `index` actually returns. -/
def pyEqOrIs (a b : Option ℚ) : Bool :=
  match a, b with
  | some x, some y => x == y
  | none, none => true
  | _, _ => false

/-- Embedding of `kappa_scores.index(highest_kappa)`. -/
def pyIndex (scores : List (Option ℚ)) (v : Option ℚ) : ℕ :=
  scores.findIdx (fun x => pyEqOrIs x v)

/-- The `for i in range(n_raters)` loop of
`reviewer_contribution_analysis`: compute the kappa of the matrix with
row `i` removed and append it; the first raised `ValueError` propagates
and aborts the loop. -/
def collectScores (ratings : List (List ℤ)) : List ℕ → Except String (List (Option ℚ))
  | [] => .ok []
  | i :: is => do
    let r ← fleiss_kappa_binary (ratings.eraseIdx i)
    let rest ← collectScores ratings is
    pure (r.1 :: rest)

/-- Embedding of `reviewer_contribution_analysis`.  `max([])` raises
`ValueError("max() arg is an empty sequence")` in Python, which is the
only failure raised by the body of the function itself. -/
def reviewer_contribution_analysis (ratings : List (List ℤ)) :
    Except String (ℕ × Option ℚ × List (Option ℚ)) :=
  match collectScores ratings (List.range ratings.length) with
  | .error e => .error e
  | .ok [] => .error "max() arg is an empty sequence"
  | .ok (s0 :: rest) =>
    .ok (pyIndex (s0 :: rest) (pyMax s0 rest), pyMax s0 rest, s0 :: rest)

/-! ### Specification-side definitions

These restate, in the vocabulary of the spec, the quantities the claims
talk about; the theorems below relate them to the embedding. -/

/-- Matrix entry `ratings[j][i]` (defaulting to `0` out of range). -/
def entry (ratings : List (List ℤ)) (j i : ℕ) : ℤ := (ratings.getD j []).getD i 0

/-- A valid rating matrix as the spec describes it: at least two rater
rows, every row of the same length `n_items ≥ 2`, every value `0` or `1`. -/
def Valid (ratings : List (List ℤ)) : Prop :=
  2 ≤ ratings.length ∧ (∀ row ∈ ratings, row.length = nItems ratings) ∧
    2 ≤ nItems ratings ∧ ∀ row ∈ ratings, ∀ x ∈ row, x = 0 ∨ x = 1

instance (ratings : List (List ℤ)) : Decidable (Valid ratings) := by
  unfold Valid; exact inferInstance

/-- Spec reading of `agreements`: per item `i`, for every pair of distinct
raters `j < k`, one agreement when they assigned the same value. -/
def specAgreements (ratings : List (List ℤ)) : ℕ :=
  ∑ i in Finset.range (nItems ratings), ∑ j in Finset.range (nRaters ratings),
    ∑ k in Finset.range (nRaters ratings),
      if j < k ∧ entry ratings j i = entry ratings k i then 1 else 0

/-- Spec formula `total_pairs = N · (R·(R-1)/2)`. -/
def specTotalPairs (ratings : List (List ℤ)) : ℕ :=
  nItems ratings * (nRaters ratings * (nRaters ratings - 1) / 2)

/-- Spec reading of `po`. -/
def specPo (ratings : List (List ℤ)) : ℚ :=
  (specAgreements ratings : ℚ) / (specTotalPairs ratings : ℚ)

/-- Spec reading of `p_pos`: arithmetic mean over items of the fraction
of raters marking the item `1`. -/
def specPpos (ratings : List (List ℤ)) : ℚ :=
  (∑ i in Finset.range (nItems ratings),
      ((col ratings i).count 1 : ℚ) / (nRaters ratings : ℚ)) /
    (nItems ratings : ℚ)

/-- Spec reading of `p_e`. -/
def specPe (ratings : List (List ℤ)) : ℚ :=
  specPpos ratings ^ 2 + (1 - specPpos ratings) ^ 2

/-- Spec reading of `kappa`. -/
def specKappa (ratings : List (List ℤ)) : ℚ :=
  (specPo ratings - specPe ratings) / (1 - specPe ratings)

/-- Mathematical maximum of a sequence of rationals (`0` on the empty
sequence, which no claim uses). -/
def listMax : List ℚ → ℚ
  | [] => 0
  | x :: xs => xs.foldl max x

/-- Lowest index of a list achieving its maximum. -/
def firstMaxIdx (qs : List ℚ) : ℕ :=
  qs.findIdx (fun q => q == listMax qs)

/-! ### Bridging lemmas: list folds vs `Finset` sums -/

lemma listSum_range_eq {M : Type*} [AddCommMonoid M] (f : ℕ → M) (n : ℕ) :
    ((List.range n).map f).sum = ∑ i in Finset.range n, f i := by
  induction n with
  | zero => simp
  | succ n ih =>
    rw [List.range_succ, List.map_append, List.sum_append, Finset.sum_range_succ, ih]
    simp

lemma getD_map_eq {α β : Type*} (f : α → β) (l : List α) (j : ℕ) (d : α) :
    (l.map f).getD j (f d) = f (l.getD j d) := by
  induction l generalizing j with
  | nil => simp
  | cons x xs ih => cases j <;> simp [ih]

lemma countP_eq_sum (p : ℤ → Bool) (v : List ℤ) :
    v.countP p = ∑ k in Finset.range v.length, if p (v.getD k 0) then 1 else 0 := by
  induction v with
  | nil => simp
  | cons x xs ih =>
    rw [List.countP_cons, List.length_cons, Finset.sum_range_succ']
    simp [ih]

lemma pairAgreements_eq_sum (v : List ℤ) :
    pairAgreements v = ∑ j in Finset.range v.length, ∑ k in Finset.range v.length,
      if j < k ∧ v.getD j 0 = v.getD k 0 then 1 else 0 := by
  induction v with
  | nil => simp [pairAgreements]
  | cons x xs ih =>
    rw [pairAgreements, List.length_cons, Finset.sum_range_succ']
    have h0 : (∑ k in Finset.range (xs.length + 1),
        if 0 < k ∧ (x :: xs).getD 0 0 = (x :: xs).getD k 0 then 1 else 0) =
        xs.countP (fun y => x == y) := by
      rw [Finset.sum_range_succ', countP_eq_sum]
      simp
    have h1 : ∀ j, (∑ k in Finset.range (xs.length + 1),
        if j + 1 < k ∧ (x :: xs).getD (j + 1) 0 = (x :: xs).getD k 0 then 1 else 0) =
        ∑ k in Finset.range xs.length,
          if j < k ∧ xs.getD j 0 = xs.getD k 0 then 1 else 0 := by
      intro j
      rw [Finset.sum_range_succ']
      simp [Nat.succ_lt_succ_iff]
    rw [h0]
    simp only [h1]
    rw [ih]
    omega

lemma pairTotal_eq_choose (v : List ℤ) : pairTotal v = v.length.choose 2 := by
  induction v with
  | nil => simp [pairTotal]
  | cons x xs ih =>
    rw [pairTotal, ih, List.length_cons, Nat.choose_succ_succ, Nat.choose_one_right]

lemma pairAgreements_le_pairTotal (v : List ℤ) : pairAgreements v ≤ pairTotal v := by
  induction v with
  | nil => simp [pairAgreements, pairTotal]
  | cons x xs ih =>
    rw [pairAgreements, pairTotal]
    exact Nat.add_le_add (List.countP_le_length _) ih

/-! ### Columns and binary values -/

lemma col_length (ratings : List (List ℤ)) (i : ℕ) :
    (col ratings i).length = ratings.length := by
  simp [col]

lemma col_getD (ratings : List (List ℤ)) (i j : ℕ) :
    (col ratings i).getD j 0 = entry ratings j i := by
  have h := getD_map_eq (fun row => row.getD i 0) ratings j []
  simpa [col, entry] using h

lemma getD_mem_or_default {α : Type*} (l : List α) (n : ℕ) (d : α) :
    l.getD n d ∈ l ∨ l.getD n d = d := by
  induction l generalizing n with
  | nil => right; simp
  | cons x xs ih =>
    cases n with
    | zero => left; simp
    | succ m =>
      rcases ih m with h | h
      · left; simp only [List.getD_cons_succ]; exact List.mem_cons_of_mem _ h
      · right; simpa using h

lemma col_binary {ratings : List (List ℤ)}
    (hb : ∀ row ∈ ratings, ∀ x ∈ row, x = 0 ∨ x = 1) (i : ℕ) :
    ∀ x ∈ col ratings i, x = 0 ∨ x = 1 := by
  intro x hx
  simp only [col, List.mem_map] at hx
  obtain ⟨row, hrow, rfl⟩ := hx
  rcases getD_mem_or_default row i 0 with h | h
  · exact hb row hrow _ h
  · left; exact h

lemma binary_sum_eq_count (v : List ℤ) (hb : ∀ x ∈ v, x = 0 ∨ x = 1) :
    v.sum = (v.count 1 : ℤ) := by
  induction v with
  | nil => simp
  | cons x xs ih =>
    have hx := hb x (List.mem_cons_self x xs)
    have ihx := ih (fun y hy => hb y (List.mem_cons_of_mem _ hy))
    rcases hx with h | h
    · simp [List.count_cons, h, ihx]
    · simp [List.count_cons, h, ihx]
      omega

lemma binary_sum_nonneg (v : List ℤ) (hb : ∀ x ∈ v, x = 0 ∨ x = 1) : 0 ≤ v.sum := by
  induction v with
  | nil => simp
  | cons x xs ih =>
    have hx := hb x (List.mem_cons_self x xs)
    have ihx := ih (fun y hy => hb y (List.mem_cons_of_mem _ hy))
    rcases hx with h | h <;> simp [h] <;> omega

lemma binary_sum_le_length (v : List ℤ) (hb : ∀ x ∈ v, x = 0 ∨ x = 1) :
    v.sum ≤ (v.length : ℤ) := by
  induction v with
  | nil => simp
  | cons x xs ih =>
    have hx := hb x (List.mem_cons_self x xs)
    have ihx := ih (fun y hy => hb y (List.mem_cons_of_mem _ hy))
    rcases hx with h | h <;> simp [h] <;> omega

lemma dedup_eq_single {α : Type*} [DecidableEq α] (l : List α) (a : α)
    (hne : l ≠ []) (h : ∀ x ∈ l, x = a) : l.dedup = [a] := by
  induction l with
  | nil => exact absurd rfl hne
  | cons x xs ih =>
    have hx : x = a := h x (List.mem_cons_self x xs)
    cases xs with
    | nil => simp [hx]
    | cons y ys =>
      have hy : y = a := h y (by simp)
      have hmem : x ∈ y :: ys := by rw [hx, ← hy]; exact List.mem_cons_self y ys
      rw [List.dedup_cons_of_mem hmem,
        ih (by simp) (fun z hz => h z (List.mem_cons_of_mem _ hz))]

/-! ### The validation checks pass on valid input -/

lemma fleiss_ok_of_valid {ratings : List (List ℤ)} (hv : Valid ratings) :
    fleiss_kappa_binary ratings = .ok (kappaVal ratings, poVal ratings) := by
  obtain ⟨hR, hlen, hN, hb⟩ := hv
  have hne : ratings ≠ [] := List.ne_nil_of_length_pos (by omega)
  have h1 : ratings.isEmpty = false := by
    simpa [List.isEmpty_iff] using hne
  have h3 : (ratings.map List.length).dedup = [nItems ratings] := by
    refine dedup_eq_single _ _ (by simp [hne]) ?_
    intro x hx
    simp only [List.mem_map] at hx
    obtain ⟨row, hrow, rfl⟩ := hx
    exact hlen row hrow
  have h4 : ratings.all (fun row => row.all fun x => x == 0 || x == 1) = true := by
    simp only [List.all_eq_true]
    intro row hrow x hx
    rcases hb row hrow x hx with h | h <;> simp [h]
  have h5 : (ratings.head?.getD []).length = nItems ratings := by
    cases ratings with
    | nil => exact absurd rfl hne
    | cons r rs => simp [nItems]
  simp [fleiss_kappa_binary, h1, h3, h4, Nat.not_lt.2 hR, h5]
  omega

/-! ### The loop-computed quantities equal their spec formulas -/

lemma totalPairs_eq_spec (ratings : List (List ℤ)) :
    totalPairs ratings = specTotalPairs ratings := by
  rw [totalPairs, specTotalPairs, listSum_range_eq]
  have h : ∀ i, pairTotal (col ratings i) = (nRaters ratings).choose 2 := by
    intro i
    rw [pairTotal_eq_choose, col_length]
    rfl
  rw [Finset.sum_congr rfl (fun i _ => h i), Finset.sum_const, Finset.card_range,
    smul_eq_mul, Nat.choose_two_right]

lemma agreements_eq_spec (ratings : List (List ℤ)) :
    agreements ratings = specAgreements ratings := by
  rw [agreements, specAgreements, listSum_range_eq]
  refine Finset.sum_congr rfl (fun i _ => ?_)
  rw [pairAgreements_eq_sum, col_length]
  exact Finset.sum_congr rfl fun j _ => Finset.sum_congr rfl fun k _ => by
    rw [col_getD, col_getD]

lemma poVal_eq_spec (ratings : List (List ℤ)) : poVal ratings = specPo ratings := by
  rw [poVal, specPo, agreements_eq_spec, totalPairs_eq_spec]

lemma p_pos_eq_spec {ratings : List (List ℤ)}
    (hb : ∀ row ∈ ratings, ∀ x ∈ row, x = 0 ∨ x = 1) :
    p_pos ratings = specPpos ratings := by
  rw [p_pos, specPpos, listSum_range_eq]
  refine congrArg (· / ((nItems ratings : ℚ))) (Finset.sum_congr rfl fun i _ => ?_)
  have h := binary_sum_eq_count (col ratings i) (col_binary hb i)
  rw [h]
  push_cast
  rfl

lemma p_e_eq_spec {ratings : List (List ℤ)}
    (hb : ∀ row ∈ ratings, ∀ x ∈ row, x = 0 ∨ x = 1) :
    p_e ratings = specPe ratings := by
  rw [p_e, specPe, p_pos_eq_spec hb]

/-! ### Bounds -/

lemma div_mem_unit {a b : ℚ} (h0 : 0 ≤ a) (hab : a ≤ b) : 0 ≤ a / b ∧ a / b ≤ 1 := by
  rcases eq_or_lt_of_le (le_trans h0 hab) with hb | hb
  · have : a = 0 := le_antisymm (hb ▸ hab) h0
    simp [this]
  · exact ⟨div_nonneg h0 (le_of_lt hb), (div_le_one hb).2 hab⟩

lemma agreements_le_totalPairs (ratings : List (List ℤ)) :
    agreements ratings ≤ totalPairs ratings := by
  rw [agreements, totalPairs]
  exact List.sum_le_sum fun i _ => pairAgreements_le_pairTotal _

lemma poVal_mem_unit (ratings : List (List ℤ)) :
    0 ≤ poVal ratings ∧ poVal ratings ≤ 1 := by
  rw [poVal]
  exact div_mem_unit (by positivity) (by exact_mod_cast agreements_le_totalPairs ratings)

lemma p_pos_mem_unit {ratings : List (List ℤ)}
    (hb : ∀ row ∈ ratings, ∀ x ∈ row, x = 0 ∨ x = 1) :
    0 ≤ p_pos ratings ∧ p_pos ratings ≤ 1 := by
  rw [p_pos]
  have hterm : ∀ i, 0 ≤ ((col ratings i).sum : ℚ) / (nRaters ratings : ℚ) ∧
      ((col ratings i).sum : ℚ) / (nRaters ratings : ℚ) ≤ 1 := by
    intro i
    refine div_mem_unit ?_ ?_
    · exact_mod_cast binary_sum_nonneg _ (col_binary hb i)
    · have h := binary_sum_le_length _ (col_binary hb i)
      rw [col_length] at h
      exact_mod_cast h
  refine div_mem_unit ?_ ?_
  · exact List.sum_nonneg (by
      intro q hq
      simp only [List.mem_map] at hq
      obtain ⟨i, _, rfl⟩ := hq
      exact (hterm i).1)
  · calc ((List.range (nItems ratings)).map
          (fun i => ((col ratings i).sum : ℚ) / (nRaters ratings : ℚ))).sum
        ≤ ((List.range (nItems ratings)).map (fun _ => (1 : ℚ))).sum :=
          List.sum_le_sum fun i _ => (hterm i).2
      _ = (nItems ratings : ℚ) := by simp [List.map_const, List.sum_replicate]

lemma p_e_le_one {ratings : List (List ℤ)}
    (hb : ∀ row ∈ ratings, ∀ x ∈ row, x = 0 ∨ x = 1) : p_e ratings ≤ 1 := by
  obtain ⟨h0, h1⟩ := p_pos_mem_unit hb
  rw [p_e]
  nlinarith

lemma kappa_le_one {ratings : List (List ℤ)}
    (hb : ∀ row ∈ ratings, ∀ x ∈ row, x = 0 ∨ x = 1) {q : ℚ}
    (hq : kappaVal ratings = some q) : q ≤ 1 := by
  rw [kappaVal] at hq
  by_cases hpe : p_e ratings = 1
  · simp [hpe] at hq
  · simp only [hpe, if_false] at hq
    have hlt : p_e ratings < 1 := lt_of_le_of_ne (p_e_le_one hb) hpe
    have hpo := (poVal_mem_unit ratings).2
    have hden : 0 < 1 - p_e ratings := by linarith
    have hq' : (poVal ratings - p_e ratings) / (1 - p_e ratings) = q :=
      Option.some_inj.1 hq
    rw [← hq', div_le_one hden]
    linarith

lemma count_all_of_binary_sum_zero (v : List ℤ)
    (hb : ∀ x ∈ v, x = 0 ∨ x = 1) (h : v.sum = 0) : ∀ y ∈ v, y = 0 := by
  intro y hy
  rcases hb y hy with h0 | h1
  · exact h0
  · exfalso
    have hc : (v.count 1 : ℤ) = 0 := by rw [← binary_sum_eq_count v hb, h]
    have : v.count 1 = 0 := by exact_mod_cast hc
    rw [List.count_eq_zero] at this
    exact this (h1 ▸ hy)

lemma count_all_of_binary_sum_length (v : List ℤ)
    (hb : ∀ x ∈ v, x = 0 ∨ x = 1) (h : v.sum = (v.length : ℤ)) : ∀ y ∈ v, y = 1 := by
  have hc : (v.count 1 : ℤ) = (v.length : ℤ) := by rw [← binary_sum_eq_count v hb, h]
  have hc' : v.count 1 = v.length := by exact_mod_cast hc
  intro y hy
  exact (List.count_eq_length.1 hc' y hy).symm

lemma pairAgreements_eq_pairTotal_of_const (v : List ℤ) (c : ℤ)
    (h : ∀ y ∈ v, y = c) : pairAgreements v = pairTotal v := by
  induction v with
  | nil => rfl
  | cons x xs ih =>
    rw [pairAgreements, pairTotal,
      ih (fun y hy => h y (List.mem_cons_of_mem _ hy))]
    have hcount : xs.countP (fun y => x == y) = xs.length := by
      rw [List.countP_eq_length]
      intro a ha
      have hx : x = c := h x (List.mem_cons_self x xs)
      have hax : a = c := h a (List.mem_cons_of_mem _ ha)
      simp [hx, hax]
    rw [hcount]

lemma agreements_eq_totalPairs_of_cols_const (ratings : List (List ℤ))
    (h : ∀ i < nItems ratings, ∃ c, ∀ y ∈ col ratings i, y = c) :
    agreements ratings = totalPairs ratings := by
  rw [agreements, totalPairs]
  refine congrArg List.sum (List.map_congr_left fun i hi => ?_)
  obtain ⟨c, hc⟩ := h i (List.mem_range.1 hi)
  exact pairAgreements_eq_pairTotal_of_const _ c hc

lemma totalPairs_pos {ratings : List (List ℤ)} (hv : Valid ratings) :
    0 < totalPairs ratings := by
  obtain ⟨hR, _, hN, _⟩ := hv
  have hRn : nRaters ratings = ratings.length := rfl
  rw [totalPairs_eq_spec, specTotalPairs]
  have h2 : 2 ≤ nRaters ratings * (nRaters ratings - 1) := by
    calc 2 = 2 * 1 := rfl
    _ ≤ nRaters ratings * (nRaters ratings - 1) := Nat.mul_le_mul (by omega) (by omega)
  have h1 : 1 ≤ nRaters ratings * (nRaters ratings - 1) / 2 :=
    (Nat.one_le_div_iff (by norm_num)).2 h2
  exact Nat.mul_pos (by omega) h1

lemma poVal_eq_one {ratings : List (List ℤ)}
    (h : agreements ratings = totalPairs ratings) (hpos : 0 < totalPairs ratings) :
    poVal ratings = 1 := by
  rw [poVal, h]
  exact div_self (by exact_mod_cast Nat.pos_iff_ne_zero.1 hpos)

lemma colfrac_mem_unit {ratings : List (List ℤ)}
    (hb : ∀ row ∈ ratings, ∀ x ∈ row, x = 0 ∨ x = 1) (i : ℕ) :
    0 ≤ ((col ratings i).sum : ℚ) / (nRaters ratings : ℚ) ∧
      ((col ratings i).sum : ℚ) / (nRaters ratings : ℚ) ≤ 1 := by
  refine div_mem_unit ?_ ?_
  · exact_mod_cast binary_sum_nonneg _ (col_binary hb i)
  · have h := binary_sum_le_length _ (col_binary hb i)
    rw [col_length] at h
    exact_mod_cast h

lemma p_pos_eq_finset (ratings : List (List ℤ)) :
    p_pos ratings = (∑ i in Finset.range (nItems ratings),
      ((col ratings i).sum : ℚ) / (nRaters ratings : ℚ)) / (nItems ratings : ℚ) := by
  rw [p_pos, listSum_range_eq]

/-- When `p_e = 1` (so `p_pos` is exactly `0` or `1`), every column of a
valid matrix is constant, hence `po = 1`: the kappa division is
`0.0 / 0.0`. -/
lemma poVal_one_of_pe_one {ratings : List (List ℤ)} (hv : Valid ratings)
    (hpe : p_e ratings = 1) : poVal ratings = 1 := by
  obtain ⟨hR, hlen, hN, hb⟩ := hv
  have hNq : ((nItems ratings : ℚ)) ≠ 0 := by
    exact_mod_cast Nat.pos_iff_ne_zero.1 (by omega : 0 < nItems ratings)
  have hRq : ((nRaters ratings : ℚ)) ≠ 0 := by
    have hRn : nRaters ratings = ratings.length := rfl
    exact_mod_cast Nat.pos_iff_ne_zero.1 (show 0 < nRaters ratings by omega)
  have hppos : p_pos ratings = 0 ∨ p_pos ratings = 1 := by
    have hzero : p_pos ratings * (p_pos ratings - 1) = 0 := by
      rw [p_e] at hpe
      nlinarith
    rcases mul_eq_zero.1 hzero with h | h
    · exact Or.inl h
    · exact Or.inr (by linarith)
  have hS := p_pos_eq_finset ratings
  have hcols : ∀ i < nItems ratings, ∃ c, ∀ y ∈ col ratings i, y = c := by
    rcases hppos with hp0 | hp1
    · -- `p_pos = 0`: every per-item fraction is 0, every column is all-0
      have hsum0 : (∑ i in Finset.range (nItems ratings),
          ((col ratings i).sum : ℚ) / (nRaters ratings : ℚ)) = 0 := by
        rw [hp0] at hS
        rcases div_eq_zero_iff.1 hS.symm with h | h
        · exact h
        · exact absurd h hNq
      have hterm0 := (Finset.sum_eq_zero_iff_of_nonneg
        (fun i _ => (colfrac_mem_unit hb i).1)).1 hsum0
      intro i hi
      refine ⟨0, ?_⟩
      have h0 : ((col ratings i).sum : ℚ) / (nRaters ratings : ℚ) = 0 :=
        hterm0 i (Finset.mem_range.2 hi)
      rcases div_eq_zero_iff.1 h0 with h | h
      case inr => exact absurd h hRq
      case inl =>
        exact count_all_of_binary_sum_zero _ (col_binary hb i) (by exact_mod_cast h)
    · -- `p_pos = 1`: every per-item fraction is 1, every column is all-1
      have hsumN : (∑ i in Finset.range (nItems ratings),
          ((col ratings i).sum : ℚ) / (nRaters ratings : ℚ)) = (nItems ratings : ℚ) := by
        rw [hp1] at hS
        exact (div_eq_one_iff_eq hNq).1 hS.symm
      have hcompl : (∑ i in Finset.range (nItems ratings),
          (1 - ((col ratings i).sum : ℚ) / (nRaters ratings : ℚ))) = 0 := by
        rw [Finset.sum_sub_distrib, hsumN, Finset.sum_const, Finset.card_range]
        simp
      have hterm1 := (Finset.sum_eq_zero_iff_of_nonneg
        (fun i _ => by linarith [(colfrac_mem_unit hb i).2])).1 hcompl
      intro i hi
      refine ⟨1, ?_⟩
      have h1 : ((col ratings i).sum : ℚ) / (nRaters ratings : ℚ) = 1 := by
        have := hterm1 i (Finset.mem_range.2 hi)
        linarith
      have hsum : ((col ratings i).sum : ℚ) = (nRaters ratings : ℚ) :=
        (div_eq_one_iff_eq hRq).1 h1
      refine count_all_of_binary_sum_length _ (col_binary hb i) ?_
      rw [col_length]
      exact_mod_cast hsum
  exact poVal_eq_one (agreements_eq_totalPairs_of_cols_const ratings hcols)
    (totalPairs_pos ⟨hR, hlen, hN, hb⟩)

lemma all_binary_iff (ratings : List (List ℤ)) :
    (ratings.all fun row => row.all fun x => x == 0 || x == 1) = true ↔
      ∀ row ∈ ratings, ∀ x ∈ row, x = 0 ∨ x = 1 := by
  simp [List.all_eq_true]

/-! ### Permutation invariance machinery -/

lemma pairAgreements_perm {v w : List ℤ} (h : v.Perm w) :
    pairAgreements v = pairAgreements w := by
  induction h with
  | nil => rfl
  | cons x h ih =>
    rw [pairAgreements, pairAgreements, ih, h.countP_eq]
  | swap x y l =>
    show pairAgreements (y :: x :: l) = pairAgreements (x :: y :: l)
    rw [pairAgreements, pairAgreements, pairAgreements, pairAgreements,
      List.countP_cons, List.countP_cons]
    by_cases hxy : x = y
    · subst hxy; ring
    · have h1 : (y == x) = false := by simp [Ne.symm hxy]
      have h2 : (x == y) = false := by simp [hxy]
      rw [h1, h2]
      ring
  | trans h1 h2 ih1 ih2 => exact ih1.trans ih2

lemma getD_map_lt {α β : Type*} (f : α → β) :
    ∀ (l : List α) (t : ℕ), t < l.length → ∀ (d : β) (d' : α),
      (l.map f).getD t d = f (l.getD t d') := by
  intro l
  induction l with
  | nil => intro t ht; exact absurd ht (by simp)
  | cons x xs ih =>
    intro t ht d d'
    cases t with
    | zero => simp
    | succ m => simpa using ih m (by simpa using ht) d d'

lemma map_getD_range {α : Type*} (l : List α) (d : α) :
    (List.range l.length).map (fun t => l.getD t d) = l := by
  induction l with
  | nil => simp
  | cons x xs ih =>
    rw [List.length_cons, List.range_succ_eq_map, List.map_cons, List.map_map]
    have htail : List.map ((fun t => (x :: xs).getD t d) ∘ Nat.succ) (List.range xs.length)
        = List.map (fun t => xs.getD t d) (List.range xs.length) :=
      List.map_congr_left fun t _ => rfl
    rw [htail]
    exact congrArg (List.cons x) ih

lemma sum_reindex_perm {M : Type*} [AddCommMonoid M] (π : List ℕ) (n : ℕ)
    (hπ : π.Perm (List.range n)) (g : ℕ → M) :
    ((List.range n).map (fun t => g (π.getD t 0))).sum = ((List.range n).map g).sum := by
  have hlenπ : π.length = n := by rw [hπ.length_eq, List.length_range]
  have h1 : (List.range n).map (fun t => π.getD t 0) = π := by
    rw [← hlenπ]
    exact map_getD_range π 0
  calc ((List.range n).map (fun t => g (π.getD t 0))).sum
      = ((List.range n).map (g ∘ fun t => π.getD t 0)).sum := rfl
    _ = (((List.range n).map (fun t => π.getD t 0)).map g).sum := by rw [List.map_map]
    _ = (π.map g).sum := by rw [h1]
    _ = ((List.range n).map g).sum := (hπ.map g).sum_eq

/-! ### Analyzer machinery -/

lemma kappaVal_eq_spec {m : List (List ℤ)} (hvm : Valid m) (hne : p_e m ≠ 1) :
    kappaVal m = some (specKappa m) := by
  rw [kappaVal, if_neg hne, specKappa, ← poVal_eq_spec, ← p_e_eq_spec hvm.2.2.2]

lemma collectScores_length {ratings : List (List ℤ)} :
    ∀ {l : List ℕ} {s : List (Option ℚ)},
      collectScores ratings l = .ok s → s.length = l.length := by
  intro l
  induction l with
  | nil =>
    intro s h
    rw [collectScores] at h
    cases h
    rfl
  | cons i is ih =>
    intro s h
    rw [collectScores] at h
    cases hf : fleiss_kappa_binary (ratings.eraseIdx i) with
    | error e => rw [hf] at h; exact absurd h (by simp [Bind.bind, Except.bind])
    | ok r =>
      rw [hf] at h
      cases hc : collectScores ratings is with
      | error e => rw [hc] at h; exact absurd h (by simp [Bind.bind, Except.bind])
      | ok rest =>
        rw [hc] at h
        simp only [Bind.bind, Except.bind, pure, Except.pure] at h
        cases h
        simp [ih hc]

lemma collectScores_ok (ratings : List (List ℤ)) (f : ℕ → ℚ) (g : ℕ → ℚ) :
    ∀ l : List ℕ,
      (∀ i ∈ l, fleiss_kappa_binary (ratings.eraseIdx i) = .ok (some (f i), g i)) →
      collectScores ratings l = .ok (l.map fun i => some (f i)) := by
  intro l
  induction l with
  | nil => intro _; rfl
  | cons i is ih =>
    intro h
    rw [collectScores, h i (List.mem_cons_self i is),
      ih fun j hj => h j (List.mem_cons_of_mem _ hj)]
    rfl

lemma pyMax_mem (x : Option ℚ) (xs : List (Option ℚ)) : pyMax x xs ∈ x :: xs := by
  induction xs generalizing x with
  | nil => simp [pyMax]
  | cons y ys ih =>
    rw [pyMax, List.foldl_cons]
    cases h : pyGt y x with
    | true =>
      have hmem := ih y
      rw [pyMax] at hmem
      simp only [h, if_true]
      exact List.mem_cons_of_mem x hmem
    | false =>
      have hmem := ih x
      rw [pyMax] at hmem
      simp only [h, Bool.false_eq_true, if_false]
      rcases List.mem_cons.1 hmem with h' | h'
      · rw [h']; exact List.mem_cons_self x (y :: ys)
      · exact List.mem_cons_of_mem x (List.mem_cons_of_mem y h')

lemma pyEqOrIs_refl (v : Option ℚ) : pyEqOrIs v v = true := by
  cases v with
  | none => rfl
  | some q => simp [pyEqOrIs]

lemma pyMax_map_some (q : ℚ) (l : List ℚ) :
    pyMax (some q) (l.map some) = some (l.foldl max q) := by
  induction l generalizing q with
  | nil => rfl
  | cons y ys ih =>
    rw [List.map_cons, pyMax, List.foldl_cons, List.foldl_cons]
    have hstep : (if pyGt (some y) (some q) then some y else some q) = some (max q y) := by
      by_cases h : q < y
      · simp [pyGt, h, max_eq_right h.le]
      · simp [pyGt, h, max_eq_left (not_lt.1 h)]
    rw [hstep]
    exact ih (max q y)

lemma pyIndex_map_some (l : List ℚ) (m : ℚ) :
    pyIndex (l.map some) (some m) = l.findIdx (fun q => q == m) := by
  rw [pyIndex]
  induction l with
  | nil => rfl
  | cons x xs ih =>
    rw [List.map_cons, List.findIdx_cons, List.findIdx_cons]
    have : pyEqOrIs (some x) (some m) = (x == m) := rfl
    rw [this, ih]

lemma nItems_eraseIdx {ratings : List (List ℤ)} (hv : Valid ratings)
    (hR3 : 3 ≤ ratings.length) (i : ℕ) :
    nItems (ratings.eraseIdx i) = nItems ratings := by
  obtain ⟨hR, hlen, hN, hb⟩ := hv
  have hlen' : 2 ≤ (ratings.eraseIdx i).length := by
    rw [List.length_eraseIdx]
    split <;> omega
  cases he : ratings.eraseIdx i with
  | nil => rw [he] at hlen'; simp at hlen'
  | cons r rs =>
    have hr : r ∈ ratings := (List.eraseIdx_sublist ratings i).subset (he ▸ List.mem_cons_self r rs)
    exact hlen r hr

lemma valid_eraseIdx {ratings : List (List ℤ)} (hv : Valid ratings)
    (hR3 : 3 ≤ ratings.length) (i : ℕ) : Valid (ratings.eraseIdx i) := by
  have hnI := nItems_eraseIdx hv hR3 i
  obtain ⟨hR, hlen, hN, hb⟩ := hv
  refine ⟨?_, ?_, ?_, ?_⟩
  · rw [List.length_eraseIdx]
    split <;> omega
  · intro row hrow
    rw [hnI]
    exact hlen row ((List.eraseIdx_sublist ratings i).subset hrow)
  · rw [hnI]; exact hN
  · intro row hrow
    exact hb row ((List.eraseIdx_sublist ratings i).subset hrow)

/-! ### Claim theorems -/

/-- C1: for every valid rating matrix, `compute` returns `(kappa, po)`
where `po = agreements / total_pairs` with
`total_pairs = N·R·(R-1)/2` and `agreements` counting, per item, the
unordered pairs of distinct raters assigning the same value; `p_pos` is
the mean over items of the fraction of raters marking `1`,
`p_e = p_pos² + p_neg²`, and (whenever `p_e ≠ 1`, where a numeric kappa
exists at all) `kappa = (po - p_e) / (1 - p_e)`. -/
theorem compute_returns_spec_values (ratings : List (List ℤ)) (hv : Valid ratings) :
    ∃ k, fleiss_kappa_binary ratings = .ok (k, specPo ratings) ∧
      (specPe ratings ≠ 1 → k = some (specKappa ratings)) := by
  refine ⟨kappaVal ratings, ?_, ?_⟩
  · rw [fleiss_ok_of_valid hv, poVal_eq_spec]
  · intro hne
    have hb := hv.2.2.2
    rw [kappaVal, poVal_eq_spec, p_e_eq_spec hb]
    simp [hne, specKappa]

/-- Witness for C1 at the concrete matrix `[[1,0],[0,1]]`. -/
theorem compute_returns_spec_values_witness :
    ∃ k, fleiss_kappa_binary [[1, 0], [0, 1]] = .ok (k, specPo [[1, 0], [0, 1]]) ∧
      (specPe [[1, 0], [0, 1]] ≠ 1 → k = some (specKappa [[1, 0], [0, 1]])) :=
  compute_returns_spec_values [[1, 0], [0, 1]] (by decide)

/-- C2: the five validation checks run in the fixed order of the source and
the first violated check alone determines the error message; in
particular the empty matrix also violates the ragged-length condition
(`len(set(map(len, [])))` is `0`, not `1`) yet fails with the
"ratings list is empty" message, and input passing all five checks
yields a result. -/
theorem validation_order (ratings : List (List ℤ)) :
    (ratings = [] →
      fleiss_kappa_binary ratings = .error "The ratings list is empty.") ∧
    (ratings ≠ [] → ratings.length < 2 →
      fleiss_kappa_binary ratings = .error "There should be at least two raters.") ∧
    (2 ≤ ratings.length → (ratings.map List.length).dedup.length ≠ 1 →
      fleiss_kappa_binary ratings = .error "All inner lists should have the same length.") ∧
    (2 ≤ ratings.length → (ratings.map List.length).dedup.length = 1 →
      ¬ (∀ row ∈ ratings, ∀ x ∈ row, x = 0 ∨ x = 1) →
      fleiss_kappa_binary ratings = .error "All ratings should be binary (0 or 1).") ∧
    (2 ≤ ratings.length → (ratings.map List.length).dedup.length = 1 →
      (∀ row ∈ ratings, ∀ x ∈ row, x = 0 ∨ x = 1) → (ratings.headD []).length < 2 →
      fleiss_kappa_binary ratings = .error "There should be at least two items being rated.") ∧
    (ratings = [] → (ratings.map List.length).dedup.length ≠ 1) ∧
    (2 ≤ ratings.length → (ratings.map List.length).dedup.length = 1 →
      (∀ row ∈ ratings, ∀ x ∈ row, x = 0 ∨ x = 1) → 2 ≤ (ratings.headD []).length →
      ∃ r, fleiss_kappa_binary ratings = .ok r) := by
  refine ⟨?_, ?_, ?_, ?_, ?_, ?_, ?_⟩
  · rintro rfl
    rfl
  · intro hne hlt
    have h1 : ratings.isEmpty = false := by simpa [List.isEmpty_iff] using hne
    simp [fleiss_kappa_binary, h1, hlt]
  · intro hR hragged
    have h1 : ratings.isEmpty = false := by
      simpa [List.isEmpty_iff] using List.ne_nil_of_length_pos (show 0 < ratings.length by omega)
    simp [fleiss_kappa_binary, h1, Nat.not_lt.2 hR, hragged]
  · intro hR hdedup hnb
    have h1 : ratings.isEmpty = false := by
      simpa [List.isEmpty_iff] using List.ne_nil_of_length_pos (show 0 < ratings.length by omega)
    have hall : (ratings.all fun row => row.all fun x => x == 0 || x == 1) = false := by
      rw [← Bool.not_eq_true, all_binary_iff]
      exact hnb
    simp [fleiss_kappa_binary, h1, Nat.not_lt.2 hR, hdedup, hall]
  · intro hR hdedup hb hlen
    have h1 : ratings.isEmpty = false := by
      simpa [List.isEmpty_iff] using List.ne_nil_of_length_pos (show 0 < ratings.length by omega)
    have hall := (all_binary_iff ratings).2 hb
    simp [fleiss_kappa_binary, h1, Nat.not_lt.2 hR, hdedup, hall, List.headD] at hlen ⊢
    cases ratings with
    | nil => simp at h1
    | cons r rs => simpa using hlen
  · rintro rfl
    simp
  · intro hR hdedup hb hlen
    have h1 : ratings.isEmpty = false := by
      simpa [List.isEmpty_iff] using List.ne_nil_of_length_pos (show 0 < ratings.length by omega)
    have hall := (all_binary_iff ratings).2 hb
    refine ⟨(kappaVal ratings, poVal ratings), ?_⟩
    have hlen' : ¬ (ratings.head?.getD []).length < 2 := by
      cases ratings with
      | nil => simp at h1
      | cons r rs => simpa using Nat.not_lt.2 hlen
    simp [fleiss_kappa_binary, h1, Nat.not_lt.2 hR, hdedup, hall, hlen']

/-- C4 counterexample: the all-zeros 2×2 matrix is valid and has
`p_e = 1`, yet `compute` does return a result: the kappa division is
`0.0 / 0.0`, which numpy float64 arithmetic evaluates to NaN (emitting a
RuntimeWarning, not raising), so the function returns `(NaN, 1.0)`
rather than producing a runtime arithmetic failure. -/
theorem compute_degenerate_counterexample :
    Valid [[0, 0], [0, 0]] ∧ p_e [[0, 0], [0, 0]] = 1 ∧
      fleiss_kappa_binary [[0, 0], [0, 0]] = .ok (none, 1) := by
  refine ⟨by decide, ?_, ?_⟩ <;>
    norm_num [fleiss_kappa_binary, kappaVal, poVal, p_e, p_pos, agreements, totalPairs,
      nItems, nRaters, col, pairAgreements, pairTotal, List.range_succ]

/-- C4 amended: for every valid matrix with `p_e = 1`, the kappa division
has numerator and denominator both exactly zero (`po = 1 = p_e`), and
`compute` returns `(NaN, 1.0)` — numpy evaluates the float64 division
`0.0 / 0.0` to NaN with a RuntimeWarning — instead of failing. -/
theorem compute_degenerate_returns_nan (ratings : List (List ℤ)) (hv : Valid ratings)
    (hpe : p_e ratings = 1) :
    fleiss_kappa_binary ratings = .ok (none, 1) ∧
      poVal ratings - p_e ratings = 0 ∧ 1 - p_e ratings = 0 := by
  have hpo := poVal_one_of_pe_one hv hpe
  refine ⟨?_, by rw [hpo, hpe]; ring, by rw [hpe]; ring⟩
  rw [fleiss_ok_of_valid hv, kappaVal, if_pos hpe, hpo]

/-- Witness for the amended C4 theorem at the all-ones 2×3 matrix. -/
theorem compute_degenerate_returns_nan_witness :
    fleiss_kappa_binary [[1, 1, 1], [1, 1, 1]] = .ok (none, 1) ∧
      poVal [[1, 1, 1], [1, 1, 1]] - p_e [[1, 1, 1], [1, 1, 1]] = 0 ∧
      1 - p_e [[1, 1, 1], [1, 1, 1]] = 0 :=
  compute_degenerate_returns_nan [[1, 1, 1], [1, 1, 1]] (by decide)
    (by norm_num [p_e, p_pos, nItems, nRaters, col, List.range_succ])

/-- C5: on every valid matrix `compute` returns, `po` lies in `[0, 1]`,
and the kappa value is at most `1` whenever it is a number (when
`p_e = 1` the kappa is NaN, which is not a number and compares false
against everything). -/
theorem compute_po_kappa_bounds (ratings : List (List ℤ)) (hv : Valid ratings) :
    ∃ k po, fleiss_kappa_binary ratings = .ok (k, po) ∧ 0 ≤ po ∧ po ≤ 1 ∧
      ∀ q, k = some q → q ≤ 1 :=
  ⟨kappaVal ratings, poVal ratings, fleiss_ok_of_valid hv,
    (poVal_mem_unit ratings).1, (poVal_mem_unit ratings).2,
    fun _ hq => kappa_le_one hv.2.2.2 hq⟩

/-- Witness for C5 at the concrete matrix `[[1,1],[0,1]]`. -/
theorem compute_po_kappa_bounds_witness :
    ∃ k po, fleiss_kappa_binary [[1, 1], [0, 1]] = .ok (k, po) ∧ 0 ≤ po ∧ po ≤ 1 ∧
      ∀ q, k = some q → q ≤ 1 :=
  compute_po_kappa_bounds [[1, 1], [0, 1]] (by decide)

/-- C6: when every rater row is identical, `po = 1.0`, and whenever
`p_e < 1` the returned kappa is exactly `1.0`. -/
theorem compute_perfect_agreement (ratings : List (List ℤ)) (hv : Valid ratings)
    (hid : ∀ row ∈ ratings, row = ratings.headD []) :
    ∃ k, fleiss_kappa_binary ratings = .ok (k, 1) ∧
      (p_e ratings < 1 → k = some 1) := by
  have hcols : ∀ i < nItems ratings, ∃ c, ∀ y ∈ col ratings i, y = c := by
    intro i _
    refine ⟨(ratings.headD []).getD i 0, ?_⟩
    intro y hy
    simp only [col, List.mem_map] at hy
    obtain ⟨row, hrow, rfl⟩ := hy
    rw [hid row hrow]
  have hpo := poVal_eq_one
    (agreements_eq_totalPairs_of_cols_const ratings hcols) (totalPairs_pos hv)
  refine ⟨kappaVal ratings, by rw [fleiss_ok_of_valid hv, hpo], ?_⟩
  intro hlt
  rw [kappaVal, if_neg (ne_of_lt hlt), hpo, div_self (by linarith)]

/-- Witness for C6 at the concrete matrix `[[1,0],[1,0]]`. -/
theorem compute_perfect_agreement_witness :
    ∃ k, fleiss_kappa_binary [[1, 0], [1, 0]] = .ok (k, 1) ∧
      (p_e [[1, 0], [1, 0]] < 1 → k = some 1) :=
  compute_perfect_agreement [[1, 0], [1, 0]] (by decide) (by decide)

/-- C7: permuting the rater rows, or permuting the item columns
consistently across all rows (the new column list being `π`, any
permutation of `0..N-1`), leaves the whole result of `compute` — both
`kappa` and `po` — unchanged. -/
theorem compute_symmetry (ratings ratings₂ : List (List ℤ)) (π : List ℕ)
    (hv : Valid ratings) :
    (ratings.Perm ratings₂ →
      fleiss_kappa_binary ratings₂ = fleiss_kappa_binary ratings) ∧
    (π.Perm (List.range (nItems ratings)) →
      fleiss_kappa_binary (ratings.map (fun row => π.map (fun i => row.getD i 0))) =
        fleiss_kappa_binary ratings) := by
  obtain ⟨hR, hlen, hN, hb⟩ := hv
  constructor
  · intro hperm
    have hlen₂ : ∀ row ∈ ratings₂, row.length = nItems ratings :=
      fun row hrow => hlen row (hperm.mem_iff.2 hrow)
    have hnR₂ : ratings₂.length = ratings.length := hperm.length_eq.symm
    have hnItems₂ : nItems ratings₂ = nItems ratings := by
      cases ratings₂ with
      | nil => exfalso; rw [← hnR₂] at hR; simp at hR
      | cons r rs => exact hlen₂ r (List.mem_cons_self r rs)
    have hv₂ : Valid ratings₂ :=
      ⟨by omega, by rw [hnItems₂]; exact hlen₂, by rw [hnItems₂]; exact hN,
        fun row hrow => hb row (hperm.mem_iff.2 hrow)⟩
    have hag : agreements ratings₂ = agreements ratings := by
      rw [agreements, agreements, hnItems₂]
      refine congrArg List.sum (List.map_congr_left fun i _ => ?_)
      exact (pairAgreements_perm (hperm.map (fun row => row.getD i 0))).symm
    have htp : totalPairs ratings₂ = totalPairs ratings := by
      rw [totalPairs_eq_spec, totalPairs_eq_spec, specTotalPairs, specTotalPairs,
        hnItems₂]
      have : nRaters ratings₂ = nRaters ratings := hnR₂
      rw [this]
    have hpp : p_pos ratings₂ = p_pos ratings := by
      rw [p_pos, p_pos, hnItems₂]
      have hnum : (List.range (nItems ratings)).map
            (fun i => ((col ratings₂ i).sum : ℚ) / (nRaters ratings₂ : ℚ))
          = (List.range (nItems ratings)).map
            (fun i => ((col ratings i).sum : ℚ) / (nRaters ratings : ℚ)) := by
        refine List.map_congr_left fun i _ => ?_
        have hsum : (col ratings₂ i).sum = (col ratings i).sum := by
          rw [col, col]
          exact ((hperm.map (fun row => row.getD i 0)).sum_eq).symm
        have hr : nRaters ratings₂ = nRaters ratings := hnR₂
        rw [hsum, hr]
      rw [hnum]
    rw [fleiss_ok_of_valid hv₂,
      fleiss_ok_of_valid ⟨hR, hlen, hN, hb⟩,
      kappaVal, kappaVal, poVal, poVal, p_e, p_e, hag, htp, hpp]
  · intro hπ
    have hπlen : π.length = nItems ratings := by rw [hπ.length_eq, List.length_range]
    have hne : ratings ≠ [] := List.ne_nil_of_length_pos (by omega)
    have hnItemsP :
        nItems (ratings.map (fun row => π.map (fun i => row.getD i 0)))
          = nItems ratings := by
      cases ratings with
      | nil => exact absurd rfl hne
      | cons r rs => simpa [nItems] using hπlen
    have hnRatersP :
        nRaters (ratings.map (fun row => π.map (fun i => row.getD i 0)))
          = nRaters ratings := by
      simp [nRaters]
    have hbP : ∀ row ∈ ratings.map (fun row => π.map (fun i => row.getD i 0)),
        ∀ x ∈ row, x = 0 ∨ x = 1 := by
      intro row hrow x hx
      simp only [List.mem_map] at hrow
      obtain ⟨r, hr, rfl⟩ := hrow
      simp only [List.mem_map] at hx
      obtain ⟨i, _, rfl⟩ := hx
      rcases getD_mem_or_default r i 0 with hm | hd
      · exact hb r hr _ hm
      · exact Or.inl hd
    have hvP : Valid (ratings.map (fun row => π.map (fun i => row.getD i 0))) := by
      refine ⟨by simpa using hR, ?_, by rw [hnItemsP]; exact hN, hbP⟩
      intro row hrow
      simp only [List.mem_map] at hrow
      obtain ⟨r, _, rfl⟩ := hrow
      rw [hnItemsP, List.length_map, hπlen]
    have hcolP : ∀ t < π.length,
        col (ratings.map (fun row => π.map (fun i => row.getD i 0))) t
          = col ratings (π.getD t 0) := by
      intro t ht
      rw [col, col, List.map_map]
      exact List.map_congr_left fun row _ => getD_map_lt _ _ t ht 0 0
    have hagP : agreements (ratings.map (fun row => π.map (fun i => row.getD i 0)))
        = agreements ratings := by
      rw [agreements, agreements, hnItemsP]
      have hcongr : (List.range (nItems ratings)).map
            (fun t => pairAgreements
              (col (ratings.map (fun row => π.map (fun i => row.getD i 0))) t))
          = (List.range (nItems ratings)).map
            (fun t => pairAgreements (col ratings (π.getD t 0))) := by
        refine List.map_congr_left fun t ht => ?_
        rw [hcolP t (by rw [hπlen]; exact List.mem_range.1 ht)]
      rw [hcongr]
      exact sum_reindex_perm π _ hπ (fun i => pairAgreements (col ratings i))
    have htpP : totalPairs (ratings.map (fun row => π.map (fun i => row.getD i 0)))
        = totalPairs ratings := by
      rw [totalPairs_eq_spec, totalPairs_eq_spec, specTotalPairs, specTotalPairs,
        hnItemsP, hnRatersP]
    have hppP : p_pos (ratings.map (fun row => π.map (fun i => row.getD i 0)))
        = p_pos ratings := by
      rw [p_pos, p_pos, hnItemsP, hnRatersP]
      have hcongr : (List.range (nItems ratings)).map
            (fun t => (((col (ratings.map (fun row => π.map (fun i => row.getD i 0))) t).sum : ℚ)
              / (nRaters ratings : ℚ)))
          = (List.range (nItems ratings)).map
            (fun t => (((col ratings (π.getD t 0)).sum : ℚ) / (nRaters ratings : ℚ))) := by
        refine List.map_congr_left fun t ht => ?_
        rw [hcolP t (by rw [hπlen]; exact List.mem_range.1 ht)]
      rw [hcongr,
        sum_reindex_perm π _ hπ (fun i => (((col ratings i).sum : ℚ) / (nRaters ratings : ℚ)))]
    rw [fleiss_ok_of_valid hvP,
      fleiss_ok_of_valid ⟨hR, hlen, hN, hb⟩,
      kappaVal, kappaVal, poVal, poVal, p_e, p_e, hagP, htpP, hppP]

/-- Witness for C7: swapping the two rows of `[[1,0],[0,1]]` and
reversing its two columns each reproduce the original result. -/
theorem compute_symmetry_witness :
    (fleiss_kappa_binary [[0, 1], [1, 0]] = fleiss_kappa_binary [[1, 0], [0, 1]]) ∧
    (fleiss_kappa_binary ([[1, 0], [0, 1]].map
        (fun row => [1, 0].map (fun i => row.getD i 0))) =
      fleiss_kappa_binary [[1, 0], [0, 1]]) :=
  ⟨(compute_symmetry [[1, 0], [0, 1]] [[0, 1], [1, 0]] [1, 0] (by decide)).1 (by decide),
    (compute_symmetry [[1, 0], [0, 1]] [[0, 1], [1, 0]] [1, 0] (by decide)).2 (by decide)⟩

/-- Witness for C2: the empty matrix (which also satisfies the
ragged-length condition) fails with the first message, and a ragged
two-rater matrix fails with the third. -/
theorem validation_order_witness :
    fleiss_kappa_binary [] = .error "The ratings list is empty." ∧
    ((List.map List.length ([] : List (List ℤ))).dedup.length ≠ 1) ∧
    fleiss_kappa_binary [[0], [0, 1]] =
      .error "All inner lists should have the same length." :=
  ⟨(validation_order []).1 rfl, (validation_order []).2.2.2.2.2.1 rfl,
    (validation_order [[0], [0, 1]]).2.2.1 (by decide) (by decide)⟩

/-- C3: on a valid matrix with at least 3 raters (so that every reduced
matrix is still valid) whose reduced matrices are all non-degenerate
(`p_e ≠ 1`, so each reduced kappa is a number), `analyze` returns the
per-exclusion kappa list in input order, its maximum as `best_kappa`,
and the lowest index achieving that maximum as the excluded rater. -/
theorem analyze_leave_one_out (ratings : List (List ℤ)) (hv : Valid ratings)
    (hR3 : 3 ≤ ratings.length)
    (hnd : ∀ i < ratings.length, p_e (ratings.eraseIdx i) ≠ 1) :
    reviewer_contribution_analysis ratings =
      .ok (firstMaxIdx ((List.range ratings.length).map fun i =>
            specKappa (ratings.eraseIdx i)),
        some (listMax ((List.range ratings.length).map fun i =>
            specKappa (ratings.eraseIdx i))),
        ((List.range ratings.length).map fun i =>
            specKappa (ratings.eraseIdx i)).map some) := by
  have hok : collectScores ratings (List.range ratings.length) =
      .ok ((List.range ratings.length).map fun i =>
        some (specKappa (ratings.eraseIdx i))) := by
    refine collectScores_ok ratings _ (fun i => poVal (ratings.eraseIdx i)) _ ?_
    intro i hi
    have hvi := valid_eraseIdx hv hR3 i
    rw [fleiss_ok_of_valid hvi,
      kappaVal_eq_spec hvi (hnd i (List.mem_range.1 hi))]
  obtain ⟨q0, qs', hq⟩ : ∃ q0 qs',
      ((List.range ratings.length).map fun i => specKappa (ratings.eraseIdx i)) =
        q0 :: qs' := by
    have hne : ((List.range ratings.length).map fun i =>
        specKappa (ratings.eraseIdx i)) ≠ [] := by
      simp only [ne_eq, List.map_eq_nil_iff, List.range_eq_nil]
      omega
    exact List.exists_cons_of_ne_nil hne
  have hok' : collectScores ratings (List.range ratings.length) =
      .ok (some q0 :: qs'.map some) := by
    rw [hok]
    have : ((List.range ratings.length).map fun i =>
        some (specKappa (ratings.eraseIdx i))) =
        (((List.range ratings.length).map fun i =>
          specKappa (ratings.eraseIdx i)).map some) := by
      rw [List.map_map]
      rfl
    rw [this, hq, List.map_cons]
  have hred : reviewer_contribution_analysis ratings =
      .ok (pyIndex (some q0 :: qs'.map some) (pyMax (some q0) (qs'.map some)),
        pyMax (some q0) (qs'.map some), some q0 :: qs'.map some) := by
    rw [reviewer_contribution_analysis, hok']
  have hmax : listMax (q0 :: qs') = qs'.foldl max q0 := rfl
  have hidx : firstMaxIdx (q0 :: qs') =
      (q0 :: qs').findIdx (fun q => q == listMax (q0 :: qs')) := rfl
  rw [hred, hq, pyMax_map_some, ← hmax, ← List.map_cons, pyIndex_map_some, ← hidx]

/-- Witness for C3 at the example matrix of the source itself,
`[[1,0,1,1,0],[1,0,1,1,0],[1,1,1,0,0]]` (excluding rater 2 wins). -/
theorem analyze_leave_one_out_witness :
    reviewer_contribution_analysis [[1, 0, 1, 1, 0], [1, 0, 1, 1, 0], [1, 1, 1, 0, 0]] =
      .ok (firstMaxIdx ((List.range ([[1, 0, 1, 1, 0], [1, 0, 1, 1, 0],
            [1, 1, 1, 0, 0]] : List (List ℤ)).length).map fun i =>
            specKappa ([[1, 0, 1, 1, 0], [1, 0, 1, 1, 0], [1, 1, 1, 0, 0]].eraseIdx i)),
        some (listMax ((List.range ([[1, 0, 1, 1, 0], [1, 0, 1, 1, 0],
            [1, 1, 1, 0, 0]] : List (List ℤ)).length).map fun i =>
            specKappa ([[1, 0, 1, 1, 0], [1, 0, 1, 1, 0], [1, 1, 1, 0, 0]].eraseIdx i))),
        ((List.range ([[1, 0, 1, 1, 0], [1, 0, 1, 1, 0],
            [1, 1, 1, 0, 0]] : List (List ℤ)).length).map fun i =>
            specKappa ([[1, 0, 1, 1, 0], [1, 0, 1, 1, 0], [1, 1, 1, 0, 0]].eraseIdx i)).map
          some) :=
  analyze_leave_one_out [[1, 0, 1, 1, 0], [1, 0, 1, 1, 0], [1, 1, 1, 0, 0]]
    (by decide) (by decide)
    (by
      intro i hi
      have hi3 : i < 3 := by simpa using hi
      interval_cases i <;>
        norm_num [p_e, p_pos, nItems, nRaters, col, List.range_succ, List.eraseIdx])

/-- C8: with exactly two raters, `analyze` fails with the very
`InvalidInputError` its first reduced (single-rater) computation raises
("There should be at least two raters."), returning no partial
results. -/
theorem analyze_two_raters (ratings : List (List ℤ)) (h2 : ratings.length = 2) :
    reviewer_contribution_analysis ratings =
      .error "There should be at least two raters." := by
  obtain ⟨a, b, rfl⟩ : ∃ a b, ratings = [a, b] := by
    cases ratings with
    | nil => simp at h2
    | cons a t =>
      cases t with
      | nil => simp at h2
      | cons b t2 =>
        cases t2 with
        | nil => exact ⟨a, b, rfl⟩
        | cons c t3 => simp at h2
  rfl

/-- Witness for C8 at the valid two-rater matrix `[[0,1],[1,0]]`. -/
theorem analyze_two_raters_witness :
    reviewer_contribution_analysis [[0, 1], [1, 0]] =
      .error "There should be at least two raters." :=
  analyze_two_raters [[0, 1], [1, 0]] rfl

/-- C9: on the empty matrix `analyze` runs its per-exclusion loop zero
times and fails at `max([])` — the "max() arg is an empty sequence"
`ValueError`, which is none of the five Agreement Calculator
validation messages. -/
theorem analyze_empty_matrix :
    reviewer_contribution_analysis [] = .error "max() arg is an empty sequence" ∧
      "max() arg is an empty sequence" ∉
        ["The ratings list is empty.", "There should be at least two raters.",
          "All inner lists should have the same length.",
          "All ratings should be binary (0 or 1).",
          "There should be at least two items being rated."] :=
  ⟨rfl, by simp⟩

/-- C10: whenever `analyze` succeeds, the per-exclusion list has exactly
one kappa per rater and the excluded index is a valid rater index. -/
theorem analyze_result_shape (ratings : List (List ℤ)) (idx : ℕ) (best : Option ℚ)
    (scores : List (Option ℚ))
    (h : reviewer_contribution_analysis ratings = .ok (idx, best, scores)) :
    scores.length = ratings.length ∧ idx < ratings.length := by
  rw [reviewer_contribution_analysis] at h
  cases hc : collectScores ratings (List.range ratings.length) with
  | error e => rw [hc] at h; cases h
  | ok s =>
    rw [hc] at h
    cases s with
    | nil => cases h
    | cons s0 rest =>
      have hs : scores = s0 :: rest ∧ idx = pyIndex (s0 :: rest) (pyMax s0 rest) := by
        cases h
        exact ⟨rfl, rfl⟩
      have hlen : (s0 :: rest).length = ratings.length := by
        rw [collectScores_length hc, List.length_range]
      refine ⟨hs.1 ▸ hlen, ?_⟩
      have hfound : ∃ x ∈ s0 :: rest, pyEqOrIs x (pyMax s0 rest) = true :=
        ⟨pyMax s0 rest, pyMax_mem s0 rest, pyEqOrIs_refl _⟩
      have hidx : pyIndex (s0 :: rest) (pyMax s0 rest) < (s0 :: rest).length :=
        List.findIdx_lt_length_of_exists hfound
      rw [hs.2]
      omega

/-- Witness for C10 at the example matrix from the source. -/
theorem analyze_result_shape_witness :
    ([some ((1 : ℚ)/6), some (1/6), some 1] : List (Option ℚ)).length =
        ([[1, 0, 1, 1, 0], [1, 0, 1, 1, 0], [1, 1, 1, 0, 0]] : List (List ℤ)).length ∧
      (2 : ℕ) < ([[1, 0, 1, 1, 0], [1, 0, 1, 1, 0], [1, 1, 1, 0, 0]] : List (List ℤ)).length :=
  analyze_result_shape [[1, 0, 1, 1, 0], [1, 0, 1, 1, 0], [1, 1, 1, 0, 0]] 2 (some 1)
    [some (1/6), some (1/6), some 1]
    (by
      norm_num [reviewer_contribution_analysis, collectScores, fleiss_kappa_binary,
        kappaVal, poVal, p_e, p_pos, agreements, totalPairs, nItems, nRaters, col,
        pairAgreements, pairTotal, List.range_succ, List.eraseIdx, pyMax, pyGt,
        pyIndex, pyEqOrIs, Except.bind, bind, Except.pure, pure, List.foldl,
        List.findIdx, List.findIdx.go, decide_eq_true_eq, beq_iff_eq, Bool.cond_eq_ite])

end FleissKappa
